import Mathlib

/-!
Verification of the IPTV-App console browser (src/console-test.py).

Strings are modelled as lists of characters (`Str`).  The Python string
primitives used by the program (`str.strip`, `str.lower`, `str.split`,
`str.startswith`, `int(...)`) are embedded as executable functions below;
each doc comment names the primitive it models.  The parser, search,
fetch and menu-step functions are translated line by line from
`IPTVBrowser` in src/console-test.py.
-/

/-- Strings of the Python program, modelled as lists of characters. -/
abbrev Str := List Char

/-- Whitespace characters stripped by Python `str.strip()` (ASCII core). -/
def pySpace (c : Char) : Bool :=
  c = ' ' || c = '\t' || c = '\n' || c = '\r' || c = '\x0b' || c = '\x0c'

/-- Python `str.lstrip()` (ASCII whitespace core). -/
def lstrip (s : Str) : Str := s.dropWhile pySpace

/-- Python `str.rstrip()` (ASCII whitespace core). -/
def rstrip (s : Str) : Str := (s.reverse.dropWhile pySpace).reverse

/-- Python `str.strip()` (ASCII whitespace core). -/
def strip (s : Str) : Str := rstrip (lstrip s)

/-- Python `str.lower()` on a single character (ASCII core: `A`-`Z` map to
`a`-`z`, everything else is fixed). -/
def pyLower (c : Char) : Char :=
  if 65 ≤ c.toNat ∧ c.toNat ≤ 90 then Char.ofNat (c.toNat + 32) else c

/-- Python `str.lower()` (ASCII core). -/
def lowerStr (s : Str) : Str := s.map pyLower

/-- Python `str.split(sep)` for a one-character separator: splits at every
occurrence of `sep`, keeping empty pieces, never returning an empty list.
Also models line iteration of `io.StringIO` for `sep = newline` (the only
difference, a trailing empty piece when the text ends in a newline, is
invisible to the parser, which skips blank lines). -/
def splitOnChar (sep : Char) : Str → List Str
  | [] => [[]]
  | c :: t =>
    if c = sep then [] :: splitOnChar sep t
    else
      match splitOnChar sep t with
      | [] => [[c]]
      | h :: r => (c :: h) :: r

/-- Python `s.startswith(p)`: `hasPref p s` is true iff `p` is a prefix
of `s`. -/
def hasPref : Str → Str → Bool
  | [], _ => true
  | _ :: _, [] => false
  | a :: as, b :: bs => a = b && hasPref as bs

/-- Remainder of `s` after the first (leftmost) occurrence of `pat`,
`none` when `pat` does not occur in `s`. -/
def afterFirst (pat : Str) : Str → Option Str
  | [] => if hasPref pat [] then some [] else none
  | c :: t =>
    if hasPref pat (c :: t) then some (List.drop pat.length (c :: t))
    else afterFirst pat t

/-- Model of `re.search(key + eq-quote-group-quote, line)` for the attribute
patterns of `_parse_playlist` (e.g. `tvg-name="([^"]*)"`): the leftmost match
finds the first occurrence of `key="` in the line and captures the characters
up to the next double quote.  If the first occurrence of `key="` has no
closing quote after it, no later occurrence can match either (a later
occurrence of `key="` would itself put a quote after the first one), so the
search fails — exactly the regex's leftmost-match semantics. -/
def attrSearch (key : Str) (line : Str) : Option Str :=
  match afterFirst (key ++ ('=' :: '\"' :: [])) line with
  | none => none
  | some rest =>
    if rest.any (fun c => c = '\"') then some (rest.takeWhile (fun c => c ≠ '\"'))
    else none

/-- Python `line.split(sep-comma)[-1]` from the name fallback of
`_parse_playlist` (line 156): the piece of the line after its last comma
(the whole line when it has no comma). -/
def lastCommaSplit (s : Str) : Str := (splitOnChar ',' s).getLastD []

/-- The channel record of src/console-test.py (dataclass `IPTVChannel`,
lines 29-38).  `category` keeps its dataclass default `None`; the parser
never sets it. -/
structure IPTVChannel where
  name : Str
  group : Str
  url : Str
  logo : Option Str := none
  epg_id : Option Str := none
  country : Option Str := none
  language : Option Str := none
  category : Option Str := none
deriving DecidableEq, Repr

/-- The `#EXTINF:` tag tested by `_parse_playlist` (line 151). -/
def extinfTag : Str := "#EXTINF:".toList

/-- Channel construction of `_parse_playlist`, lines 155-171: each field
comes from an independent attribute search on the metadata line; the name
falls back to the text after the last comma (stripped), the group to the
literal `Ungrouped`, the optional fields to `None`. -/
def buildChannel (extinf url : Str) : IPTVChannel :=
  { name := match attrSearch ("tvg-name".toList) extinf with
            | some n => n
            | none => strip (lastCommaSplit extinf)
  , group := match attrSearch ("group-title".toList) extinf with
             | some g => g
             | none => "Ungrouped".toList
  , url := url
  , logo := attrSearch ("tvg-logo".toList) extinf
  , epg_id := attrSearch ("tvg-id".toList) extinf
  , country := attrSearch ("tvg-country".toList) extinf
  , language := attrSearch ("tvg-language".toList) extinf
  , category := none }

/-- The line scan of `_parse_playlist`, lines 142-176: each line is stripped;
blank lines are skipped; a line starting with `#EXTINF:` becomes the pending
metadata line (replacing any previous one); a non-comment line while metadata
is pending emits a channel and clears the pending line; everything else
(comment lines, URL lines with no pending metadata) is ignored. -/
def parseLoop : List Str → Option Str → List IPTVChannel
  | [], _ => []
  | line :: rest, pending =>
    if strip line = [] then parseLoop rest pending
    else if hasPref extinfTag (strip line) then parseLoop rest (some (strip line))
    else
      match pending with
      | some ext =>
        if (strip line).head? = some '#' then parseLoop rest pending
        else buildChannel ext (strip line) :: parseLoop rest none
      | none => parseLoop rest pending

/-- `_parse_playlist` (lines 126-180): skip the first line (the `#EXTM3U`
header, consumed by `buffer.readline()`) and scan the remaining lines. -/
def parsePlaylist (content : Str) : List IPTVChannel :=
  parseLoop (splitOnChar '\n' content).tail none

/-- The result accumulation loop of `search_channels`, lines 189-197: walk the
channel list in order and append a channel when its score is strictly greater
than 80 (the per-channel scoring call in the source cannot raise on the data
modelled here, so the `except continue` branch is dead). -/
def searchLoop (score : Str → Str → Nat) (q : Str) : List IPTVChannel → List IPTVChannel
  | [] => []
  | c :: rest =>
    if 80 < score q (lowerStr c.name) then c :: searchLoop score q rest
    else searchLoop score q rest

/-- `search_channels` (lines 182-198): trim and lowercase the query, return
the empty list when the result is empty, otherwise scan the channels in
order.  The scoring function (`fuzz.partial_ratio`, an external library) is a
parameter. -/
def search_channels (score : Str → Str → Nat) (channels : List IPTVChannel)
    (query : Str) : List IPTVChannel :=
  let q := lowerStr (strip query)
  if q = [] then [] else searchLoop score q channels

/-- Whether `q` occurs as a contiguous segment of `m`. -/
def isSegOf (q : Str) : Str → Bool
  | [] => hasPref q []
  | c :: t => hasPref q (c :: t) || isSegOf q t

/-- Length of a longest common subsequence, the alignment count behind a
difflib-style similarity ratio. -/
def lcsLen : Str → Str → Nat
  | [], _ => 0
  | _ :: _, [] => 0
  | a :: as, b :: bs =>
    if a = b then lcsLen as bs + 1
    else max (lcsLen (a :: as) bs) (lcsLen as (b :: bs))
termination_by x y => x.length + y.length
decreasing_by all_goals simp_arith [List.length_cons]

/-- Similarity of two strings on the 0-100 scale: twice the aligned length
over the total length. -/
def simScore (a b : Str) : Nat :=
  if a.length + b.length = 0 then 100
  else (200 * lcsLen a b) / (a.length + b.length)

/-- All contiguous windows of length `n` of `s`. -/
def windows (n : Nat) (s : Str) : List Str :=
  (List.range (s.length + 1 - n)).map (fun i => (s.drop i).take n)

/-- Best similarity of `short` against the windows of its length in `long`. -/
def bestAlignScore (short long : Str) : Nat :=
  ((windows short.length long).map (simScore short)).foldr max 0

/-- Modelled from the spec: the scoring function `fuzz.partial_ratio` of the
external fuzzywuzzy library is not part of this repository.  Spec section 4.3
and the glossary describe it as the best-aligned contiguous-substring
similarity of the shorter string within the longer one on a 0-100 scale, with
a perfect score when the shorter string occurs verbatim (the library returns
100 for any alignment above 99.5). -/
def fuzzScore (s1 s2 : Str) : Nat :=
  let short := if s1.length ≤ s2.length then s1 else s2
  let long := if s1.length ≤ s2.length then s2 else s1
  if short = [] then 0
  else if isSegOf short long then 100
  else bestAlignScore short long

/-- The error taxonomy of `fetch_playlist`: `URLValidationError`, a
`requests` network error, and `PlaylistParsingError` for a body without the
`#EXTM3U` header. -/
inductive FetchError where
  | urlValidation
  | network
  | malformedPlaylist
deriving DecidableEq, Repr

/-- The mutable state of `IPTVBrowser` (lines 54-58) touched by fetching. -/
structure BrowserState where
  playlist_url : Option Str := none
  channels : List IPTVChannel := []
  current_filter : Option Str := none
deriving DecidableEq, Repr

/-- `fetch_playlist` (lines 99-124) as a state transition.  The URL shape
test (`urlparse`) and the HTTP GET (`requests`) are external effects, passed
in as `urlValid` and `response` (`none` models a request/status exception).
The source stores `self.playlist_url = url` before the request, so that field
does change on a malformed playlist; `self.channels` is only replaced by
`_parse_playlist` after the header check passes. -/
def fetch_playlist (st : BrowserState) (url : Str) (urlValid : Bool)
    (response : Option Str) : Except FetchError Unit × BrowserState :=
  if urlValid then
    let st1 := { st with playlist_url := some url }
    match response with
    | none => (Except.error FetchError.network, st1)
    | some content =>
      if hasPref ("#EXTM3U".toList) (strip content) then
        (Except.ok (), { st1 with channels := parsePlaylist content })
      else (Except.error FetchError.malformedPlaylist, st1)
  else (Except.error FetchError.urlValidation, st)

/-- Digit value of an ASCII digit character. -/
def charDigit (c : Char) : Nat := c.toNat - 48

/-- Continuation of `pyIntCore` after at least one digit was read: further
digits extend the accumulator, and a single underscore may separate two
digits (Python `int` accepts `1_000`). -/
def pyIntMore (acc : Nat) : Str → Option Nat
  | [] => some acc
  | c :: t =>
    if c.isDigit then pyIntMore (10 * acc + charDigit c) t
    else if c = '_' then
      match t with
      | [] => none
      | d :: t' => if d.isDigit then pyIntMore (10 * acc + charDigit d) t' else none
    else none

/-- Digit-sequence part of Python `int(str)`: one or more digits, with
single underscores allowed between digits. -/
def pyIntCore : Str → Option Nat
  | [] => none
  | c :: t => if c.isDigit then pyIntMore (charDigit c) t else none

/-- Python `int(str)` (ASCII core): surrounding whitespace is ignored, an
optional sign precedes the digits, and a failure models the `ValueError`
caught by the menu loops. -/
def pyInt? (s : Str) : Option Int :=
  match strip s with
  | '-' :: r => (pyIntCore r).map (fun n => -(n : Int))
  | '+' :: r => (pyIntCore r).map (fun n => (n : Int))
  | r => (pyIntCore r).map (fun n => (n : Int))

/-- Outcome of one iteration of the `browse_channels` loop body. -/
inductive BrowseAction where
  | back
  | play (i : Nat)
  | errorInvalid
deriving DecidableEq, Repr

/-- Outcome of one iteration of the `browse_groups` loop body. -/
inductive GroupAction where
  | back
  | enter (i : Nat)
  | errorInvalid
deriving DecidableEq, Repr

/-- One iteration of the `browse_channels` loop body (lines 296-312) on the
user's input: `b` leaves the screen, an integer in range plays that channel,
anything else (`ValueError` from `int`, or an index outside
`0 <= idx < len(channels)`) prints an error message and re-shows the same
screen, modelled by `errorInvalid`. -/
def browse_channels_step (channels : List IPTVChannel) (choice : Str) : BrowseAction :=
  if lowerStr choice = ['b'] then BrowseAction.back
  else
    match pyInt? choice with
    | none => BrowseAction.errorInvalid
    | some n =>
      if 0 ≤ n - 1 ∧ n - 1 < (channels.length : Int) then BrowseAction.play (n - 1).toNat
      else BrowseAction.errorInvalid

/-- One iteration of the `browse_groups` loop body (lines 328-343) on the
user's input with `numGroups` groups listed: `b` leaves the screen, otherwise
`list(groups.keys())[int(choice) - 1]` is evaluated with Python list-indexing
semantics — indices in `[0, numGroups)` select directly, indices in
`[-numGroups, 0)` select from the end, and only `ValueError`/`IndexError`
reach the error branch that re-shows the screen (`errorInvalid`). -/
def browse_groups_step (numGroups : Nat) (choice : Str) : GroupAction :=
  if lowerStr choice = ['b'] then GroupAction.back
  else
    match pyInt? choice with
    | none => GroupAction.errorInvalid
    | some n =>
      if 0 ≤ n - 1 ∧ n - 1 < (numGroups : Int) then GroupAction.enter (n - 1).toNat
      else if -(numGroups : Int) ≤ n - 1 ∧ n - 1 < 0 then
        GroupAction.enter ((numGroups : Int) + (n - 1)).toNat
      else GroupAction.errorInvalid

theorem hasPref_append (p t : Str) : hasPref p (p ++ t) = true := by
  induction p with
  | nil => rfl
  | cons a as ih => simp [hasPref, ih]

theorem hasPref_head (a : Char) (p s : Str) (h : hasPref (a :: p) s = true) :
    s.head? = some a := by
  cases s with
  | nil => simp [hasPref] at h
  | cons b t =>
    simp only [hasPref, Bool.and_eq_true, decide_eq_true_eq] at h
    simp [h.1]

theorem extinf_ne_nil (l : Str) (h : hasPref extinfTag l = true) : l ≠ [] := by
  intro he
  subst he
  simp [extinfTag, hasPref] at h

theorem extinf_head (l : Str) (h : hasPref extinfTag l = true) :
    l.head? = some '#' := by
  exact hasPref_head '#' ("EXTINF:".toList) l h

theorem splitOnChar_ne_nil (sep : Char) (s : Str) : splitOnChar sep s ≠ [] := by
  induction s with
  | nil => simp [splitOnChar]
  | cons c t ih =>
    simp only [splitOnChar]
    split
    · simp
    · split
      · simp
      · simp

theorem splitOnChar_append (sep : Char) (xs ys : Str) (h : ∀ a ∈ xs, a ≠ sep) :
    splitOnChar sep (xs ++ sep :: ys) = xs :: splitOnChar sep ys := by
  induction xs with
  | nil => simp [splitOnChar]
  | cons c xs' ih =>
    have hc : c ≠ sep := h c (List.mem_cons_self c xs')
    have ih' := ih (fun a ha => h a (List.mem_cons_of_mem c ha))
    simp only [List.cons_append, splitOnChar, if_neg hc, List.append_eq, ih']

theorem splitOnChar_no_sep (sep : Char) (s : Str) (h : ∀ a ∈ s, a ≠ sep) :
    splitOnChar sep s = [s] := by
  induction s with
  | nil => rfl
  | cons c t ih =>
    have hc : c ≠ sep := h c (List.mem_cons_self c t)
    have ih' := ih (fun a ha => h a (List.mem_cons_of_mem c ha))
    simp only [splitOnChar, if_neg hc, ih']

theorem splitOnChar_two_le (sep : Char) (s : Str) (h : sep ∈ s) :
    2 ≤ (splitOnChar sep s).length := by
  induction s with
  | nil => simp at h
  | cons c t ih =>
    by_cases hc : c = sep
    · subst hc
      rw [show splitOnChar c (c :: t) = [] :: splitOnChar c t from by simp [splitOnChar]]
      have h1 : splitOnChar c t ≠ [] := splitOnChar_ne_nil c t
      have h2 : 1 ≤ (splitOnChar c t).length := by
        cases hx : splitOnChar c t with
        | nil => exact absurd hx h1
        | cons a b => simp
      simp only [List.length_cons]
      omega
    · have ht : sep ∈ t := by
        cases List.mem_cons.mp h with
        | inl h' => exact absurd h'.symm hc
        | inr h' => exact h'
      have ih' := ih ht
      simp only [splitOnChar, if_neg hc]
      cases hx : splitOnChar sep t with
      | nil => exact absurd hx (splitOnChar_ne_nil sep t)
      | cons a b =>
        rw [hx] at ih'
        simpa using ih'

theorem getLastD_of_ne_nil (l : List Str) (d d' : Str) (h : l ≠ []) :
    l.getLastD d = l.getLastD d' := by
  cases l with
  | nil => exact absurd rfl h
  | cons a t => rw [List.getLastD_cons, List.getLastD_cons]

theorem lastCommaSplit_append (pre suf : Str) (h : ',' ∉ suf) :
    lastCommaSplit (pre ++ ',' :: suf) = suf := by
  induction pre with
  | nil =>
    have hs : splitOnChar ',' suf = [suf] :=
      splitOnChar_no_sep ',' suf (fun a ha hc => h (hc ▸ ha))
    simp [lastCommaSplit, splitOnChar, hs, List.getLastD_cons]
  | cons c pre' ih =>
    by_cases hc : c = ','
    · subst hc
      unfold lastCommaSplit at ih ⊢
      rw [show ((',' :: pre') ++ ',' :: suf) = ',' :: (pre' ++ ',' :: suf) from rfl]
      rw [show splitOnChar ',' (',' :: (pre' ++ ',' :: suf))
            = [] :: splitOnChar ',' (pre' ++ ',' :: suf) from by simp [splitOnChar]]
      rw [List.getLastD_cons]
      exact ih
    · have hmem : ',' ∈ pre' ++ ',' :: suf := by simp
      have h2 := splitOnChar_two_le ',' (pre' ++ ',' :: suf) hmem
      rw [show ((c :: pre') ++ ',' :: suf) = c :: (pre' ++ ',' :: suf) from rfl]
      unfold lastCommaSplit at ih ⊢
      cases hx : splitOnChar ',' (pre' ++ ',' :: suf) with
      | nil => exact absurd hx (splitOnChar_ne_nil _ _)
      | cons a b =>
        have hb : b ≠ [] := by
          rw [hx] at h2
          intro hb
          subst hb
          simp at h2
        rw [show splitOnChar ',' (c :: (pre' ++ ',' :: suf)) = (c :: a) :: b from by
              simp only [splitOnChar, if_neg hc, hx]]
        rw [List.getLastD_cons]
        rw [hx, List.getLastD_cons] at ih
        rw [getLastD_of_ne_nil b (c :: a) a hb]
        exact ih

theorem strip_nil : strip [] = [] := rfl

theorem rstrip_isPre (s : Str) : rstrip s <+: s := by
  have h := List.dropWhile_suffix (l := s.reverse) pySpace
  have h2 : (s.reverse.dropWhile pySpace).reverse.reverse <:+ s.reverse := by
    rw [List.reverse_reverse]
    exact h
  exact List.reverse_suffix.mp h2

theorem strip_isInf (s : Str) : strip s <:+: s := by
  obtain ⟨t1, ht1⟩ := rstrip_isPre (lstrip s)
  obtain ⟨u, hu⟩ := List.dropWhile_suffix (l := s) pySpace
  refine ⟨u, t1, ?_⟩
  rw [List.append_assoc]
  show u ++ (rstrip (lstrip s) ++ t1) = s
  rw [ht1]
  exact hu

theorem strip_length_le (s : Str) : (strip s).length ≤ s.length :=
  (strip_isInf s).length_le

theorem mem_of_mem_strip (c : Char) (s : Str) (h : c ∈ strip s) : c ∈ s :=
  (strip_isInf s).subset h

theorem toNat_ofNat_small (n : Nat) (h : n < 55296) : (Char.ofNat n).toNat = n := by
  have hv : Nat.isValidChar n := Or.inl h
  simp [Char.ofNat, hv]
  rfl

theorem pyLower_idem (c : Char) : pyLower (pyLower c) = pyLower c := by
  unfold pyLower
  by_cases h : 65 ≤ c.toNat ∧ c.toNat ≤ 90
  · rw [if_pos h]
    have ht : (Char.ofNat (c.toNat + 32)).toNat = c.toNat + 32 :=
      toNat_ofNat_small (c.toNat + 32) (by omega)
    rw [if_neg]
    rw [ht]
    omega
  · rw [if_neg h, if_neg h]

theorem lowerStr_idem (s : Str) : lowerStr (lowerStr s) = lowerStr s := by
  induction s with
  | nil => rfl
  | cons c t ih => simp [lowerStr] at ih ⊢; exact ⟨pyLower_idem c, ih⟩

theorem lowerStr_fixed (s : Str) (h : ∀ c ∈ s, pyLower c = c) : lowerStr s = s := by
  induction s with
  | nil => rfl
  | cons c t ih =>
    simp only [lowerStr, List.map_cons]
    rw [h c (List.mem_cons_self c t)]
    have := ih (fun d hd => h d (List.mem_cons_of_mem c hd))
    simp only [lowerStr] at this
    rw [this]

theorem lower_strip_lower (s : Str) :
    lowerStr (strip (lowerStr s)) = strip (lowerStr s) := by
  apply lowerStr_fixed
  intro c hc
  have hmem : c ∈ lowerStr s := mem_of_mem_strip c (lowerStr s) hc
  obtain ⟨d, _, rfl⟩ := List.mem_map.mp hmem
  exact pyLower_idem d

theorem lowerStr_eq_nil (s : Str) : lowerStr s = [] ↔ s = [] := by
  simp [lowerStr]

theorem isSegOf_self_append (q t : Str) : isSegOf q (q ++ t) = true := by
  cases hq : q ++ t with
  | nil =>
    have h1 : q = [] := (List.append_eq_nil.mp hq).1
    subst h1
    rfl
  | cons c r =>
    simp only [isSegOf]
    rw [← hq, hasPref_append]
    simp

theorem isSegOf_append (q u t : Str) : isSegOf q (u ++ q ++ t) = true := by
  induction u with
  | nil => simpa using isSegOf_self_append q t
  | cons c u' ih =>
    rw [show ((c :: u') ++ q ++ t) = c :: (u' ++ q ++ t) from by simp]
    simp only [isSegOf, ih, Bool.or_true]

theorem isSegOf_of_infix (q m : Str) (h : q <:+: m) : isSegOf q m = true := by
  obtain ⟨u, t, rfl⟩ := h
  exact isSegOf_append q u t

theorem fuzzScore_of_seg (q m : Str) (hq : q ≠ []) (hlen : q.length ≤ m.length)
    (hseg : isSegOf q m = true) : fuzzScore q m = 100 := by
  simp only [fuzzScore, if_pos hlen]
  rw [if_neg hq, if_pos hseg]

theorem searchLoop_eq_filter (score : Str → Str → Nat) (q : Str)
    (l : List IPTVChannel) :
    searchLoop score q l = l.filter (fun c => 80 < score q (lowerStr c.name)) := by
  induction l with
  | nil => rfl
  | cons c rest ih =>
    simp only [searchLoop, List.filter_cons]
    by_cases h : 80 < score q (lowerStr c.name)
    · rw [if_pos h, ih]
      simp [h]
    · rw [if_neg h, ih]
      simp [h]

theorem mem_searchLoop (score : Str → Str → Nat) (q : Str) (l : List IPTVChannel)
    (c : IPTVChannel) (hc : c ∈ l) (hs : 80 < score q (lowerStr c.name)) :
    c ∈ searchLoop score q l := by
  rw [searchLoop_eq_filter]
  exact List.mem_filter.mpr ⟨hc, by simpa using hs⟩

theorem parseLoop_blank (l : Str) (rest : List Str) (p : Option Str)
    (h : strip l = []) : parseLoop (l :: rest) p = parseLoop rest p := by
  simp [parseLoop, h]

theorem parseLoop_extinf (l : Str) (rest : List Str) (p : Option Str)
    (h : hasPref extinfTag (strip l) = true) :
    parseLoop (l :: rest) p = parseLoop rest (some (strip l)) := by
  have hne : strip l ≠ [] := extinf_ne_nil (strip l) h
  simp [parseLoop, hne, h]

theorem parseLoop_comment (l : Str) (rest : List Str) (p : Option Str)
    (hh : (strip l).head? = some '#') (he : hasPref extinfTag (strip l) = false) :
    parseLoop (l :: rest) p = parseLoop rest p := by
  have hne : strip l ≠ [] := by
    intro h0
    rw [h0] at hh
    simp at hh
  cases p with
  | none => simp [parseLoop, hne, he]
  | some ext => simp [parseLoop, hne, he, hh]

theorem parseLoop_url_some (l : Str) (rest : List Str) (ext : Str)
    (hne : strip l ≠ []) (he : hasPref extinfTag (strip l) = false)
    (hh : (strip l).head? ≠ some '#') :
    parseLoop (l :: rest) (some ext)
      = buildChannel ext (strip l) :: parseLoop rest none := by
  simp [parseLoop, hne, he, hh]

theorem parseLoop_url_none (l : Str) (rest : List Str)
    (hne : strip l ≠ []) (he : hasPref extinfTag (strip l) = false) :
    parseLoop (l :: rest) none = parseLoop rest none := by
  simp [parseLoop, hne, he]

theorem parseLoop_skip (mids : List Str)
    (hm : ∀ l ∈ mids, strip l = [] ∨
        ((strip l).head? = some '#' ∧ hasPref extinfTag (strip l) = false)) :
    ∀ (tail : List Str) (p : Option Str),
      parseLoop (mids ++ tail) p = parseLoop tail p := by
  induction mids with
  | nil => intro tail p; rfl
  | cons l mids' ih =>
    intro tail p
    have ih' := ih (fun a ha => hm a (List.mem_cons_of_mem l ha))
    rw [show ((l :: mids') ++ tail) = l :: (mids' ++ tail) from rfl]
    cases hm l (List.mem_cons_self l mids') with
    | inl hb => rw [parseLoop_blank l _ p hb, ih' tail p]
    | inr hc => rw [parseLoop_comment l _ p hc.1 hc.2, ih' tail p]

/-- One playlist entry as text: the metadata line, a newline, the URL line,
a newline. -/
def pairText (p : Str × Str) : Str := p.1 ++ '\n' :: (p.2 ++ ['\n'])

/-- A playlist text made of the `#EXTM3U` header line followed by the given
metadata/URL pairs. -/
def playlistText (pairs : List (Str × Str)) : Str :=
  "#EXTM3U".toList ++ '\n' :: (pairs.map pairText).flatten

/-- A well-formed metadata/URL pair: neither line contains a newline, the
metadata line (after stripping) starts with `#EXTINF:`, and the URL line is
non-blank and not a comment after stripping. -/
def wellFormedPair (p : Str × Str) : Prop :=
  (∀ a ∈ p.1, a ≠ '\n') ∧ hasPref extinfTag (strip p.1) = true ∧
    (∀ a ∈ p.2, a ≠ '\n') ∧ strip p.2 ≠ [] ∧ (strip p.2).head? ≠ some '#'

instance : DecidablePred wellFormedPair := fun p => by
  unfold wellFormedPair
  infer_instance

/-- The line sequence the parser sees for `playlistText pairs` after the
header: alternating metadata and URL lines, with the empty piece left by the
final newline. -/
def linesOf : List (Str × Str) → List Str
  | [] => [[]]
  | p :: r => p.1 :: p.2 :: linesOf r

theorem splitOnChar_flatten (pairs : List (Str × Str))
    (h : ∀ p ∈ pairs, (∀ a ∈ p.1, a ≠ '\n') ∧ (∀ a ∈ p.2, a ≠ '\n')) :
    splitOnChar '\n' (pairs.map pairText).flatten = linesOf pairs := by
  induction pairs with
  | nil => rfl
  | cons p r ih =>
    have hp := h p (List.mem_cons_self p r)
    have ih' := ih (fun q hq => h q (List.mem_cons_of_mem p hq))
    rw [List.map_cons, List.flatten_cons]
    rw [show pairText p ++ (r.map pairText).flatten
          = p.1 ++ '\n' :: (p.2 ++ '\n' :: (r.map pairText).flatten) from by
        simp [pairText]]
    rw [splitOnChar_append '\n' p.1 _ hp.1]
    rw [splitOnChar_append '\n' p.2 _ hp.2]
    rw [ih']
    rfl

theorem parseLoop_linesOf (pairs : List (Str × Str))
    (h : ∀ p ∈ pairs, wellFormedPair p) :
    parseLoop (linesOf pairs) none
      = pairs.map (fun p => buildChannel (strip p.1) (strip p.2)) := by
  induction pairs with
  | nil => rfl
  | cons p r ih =>
    obtain ⟨-, hext, -, hne, hhash⟩ := h p (List.mem_cons_self p r)
    have ih' := ih (fun q hq => h q (List.mem_cons_of_mem p hq))
    rw [show linesOf (p :: r) = p.1 :: p.2 :: linesOf r from rfl]
    rw [parseLoop_extinf p.1 _ none hext]
    have hext2 : hasPref extinfTag (strip p.2) = false := by
      cases hx : hasPref extinfTag (strip p.2) with
      | false => rfl
      | true => exact absurd (extinf_head (strip p.2) hx) hhash
    rw [parseLoop_url_some p.2 _ (strip p.1) hne hext2 hhash]
    rw [ih', List.map_cons]

theorem playlist_lines (pairs : List (Str × Str))
    (h : ∀ p ∈ pairs, wellFormedPair p) :
    (splitOnChar '\n' (playlistText pairs)).tail = linesOf pairs := by
  unfold playlistText
  rw [splitOnChar_append '\n' ("#EXTM3U".toList) _ (by decide)]
  rw [splitOnChar_flatten pairs (fun p hp => ⟨(h p hp).1, (h p hp).2.2.1⟩)]
  rfl

/-- Claim C1: parsing the playlist text made of the `#EXTM3U` header followed
by well-formed metadata/URL pairs produces one channel per pair, built from
that pair's stripped metadata and URL lines in the same order, so the output
has exactly as many channels as there are pairs and in source order. -/
theorem claim1_parse_pairs (pairs : List (Str × Str))
    (h : ∀ p ∈ pairs, wellFormedPair p) :
    parsePlaylist (playlistText pairs)
        = pairs.map (fun p => buildChannel (strip p.1) (strip p.2)) ∧
      (parsePlaylist (playlistText pairs)).length = pairs.length := by
  have hmain : parsePlaylist (playlistText pairs)
      = pairs.map (fun p => buildChannel (strip p.1) (strip p.2)) := by
    unfold parsePlaylist
    rw [playlist_lines pairs h, parseLoop_linesOf pairs h]
  exact ⟨hmain, by rw [hmain, List.length_map]⟩

/-- Witness for C1 at the two well-formed pairs of the example in spec
section 8. -/
theorem claim1_parse_pairs_witness :
    (∀ p ∈ [(("#EXTINF:-1 tvg-name=\"News1\" group-title=\"News\",News1").toList,
             ("http://x/1").toList),
            (("#EXTINF:-1 group-title=\"Sports\",Game").toList,
             ("http://x/2").toList)], wellFormedPair p) ∧
      (parsePlaylist (playlistText
          [(("#EXTINF:-1 tvg-name=\"News1\" group-title=\"News\",News1").toList,
            ("http://x/1").toList),
           (("#EXTINF:-1 group-title=\"Sports\",Game").toList,
            ("http://x/2").toList)])).length = 2 :=
  ⟨by decide, (claim1_parse_pairs _ (by decide)).2⟩

/-- Claim C2: an `#EXTINF:` line followed only by blank or comment lines
contributes zero channels — whatever metadata was pending before it, the scan
emits nothing if the input ends there (the pending line is discarded), and if
the next non-blank non-comment line is another `#EXTINF:` line the scan
continues exactly as if the orphan line and the filler had never appeared
(the pending metadata is overwritten). -/
theorem claim2_orphan_extinf (pending : Option Str) (e : Str) (mids : List Str)
    (he : hasPref extinfTag (strip e) = true)
    (hm : ∀ l ∈ mids, strip l = [] ∨
        ((strip l).head? = some '#' ∧ hasPref extinfTag (strip l) = false)) :
    parseLoop (e :: mids) pending = [] ∧
      ∀ (e' : Str) (rest : List Str), hasPref extinfTag (strip e') = true →
        parseLoop (e :: (mids ++ e' :: rest)) pending
          = parseLoop (e' :: rest) pending := by
  constructor
  · rw [parseLoop_extinf e mids pending he]
    rw [show mids = mids ++ ([] : List Str) from by simp]
    rw [parseLoop_skip mids hm [] (some (strip e))]
    rfl
  · intro e' rest he'
    rw [parseLoop_extinf e _ pending he]
    rw [parseLoop_skip mids hm (e' :: rest) (some (strip e))]
    rw [parseLoop_extinf e' rest (some (strip e)) he']
    rw [parseLoop_extinf e' rest pending he']

/-- Witness for C2: the orphan entry of the example in spec section 8,
followed by a comment line and a blank line, parses to no channels. -/
theorem claim2_orphan_extinf_witness :
    parseLoop [("#EXTINF:-1,Orphan").toList, ("# a comment").toList,
        ("  ").toList] none = [] :=
  (claim2_orphan_extinf none (("#EXTINF:-1,Orphan").toList)
      [("# a comment").toList, ("  ").toList] (by decide) (by decide)).1

/-- Claim C3: for any scoring function and any query whose trimmed form is
non-empty, the search result is the stable in-order filter of the channel
list by the predicate `score of the trimmed lowercased query against the
lowercased channel name exceeds 80` — exactly the passing channels, in list
order, never reordered by score. -/
theorem claim3_search_is_filter (score : Str → Str → Nat)
    (channels : List IPTVChannel) (query : Str) (h : strip query ≠ []) :
    search_channels score channels query
      = channels.filter
          (fun c => 80 < score (lowerStr (strip query)) (lowerStr c.name)) := by
  unfold search_channels
  have hq : lowerStr (strip query) ≠ [] := by
    intro h0
    exact h ((lowerStr_eq_nil (strip query)).mp h0)
  rw [if_neg hq]
  exact searchLoop_eq_filter score (lowerStr (strip query)) channels

/-- Witness for C3 at a concrete scoring function, channel list and query. -/
theorem claim3_search_is_filter_witness :
    strip (("News").toList) ≠ [] ∧
      search_channels (fun a b => a.length + b.length)
          [{ name := ("News1").toList, group := ("News").toList,
             url := ("http://x/1").toList }] (("News").toList)
        = List.filter
            (fun c => 80 < (fun (a b : Str) => a.length + b.length)
                (lowerStr (strip (("News").toList))) (lowerStr c.name))
            [{ name := ("News1").toList, group := ("News").toList,
               url := ("http://x/1").toList }] :=
  ⟨by decide, claim3_search_is_filter (fun a b => a.length + b.length) _ _ (by decide)⟩

/-- Claim C7: a query that strips to nothing (empty or whitespace-only)
makes the search return the empty list, for every scoring function and every
channel list. -/
theorem claim7_blank_query (score : Str → Str → Nat)
    (channels : List IPTVChannel) (query : Str) (h : strip query = []) :
    search_channels score channels query = [] := by
  unfold search_channels
  rw [h]
  rfl

/-- Witness for C7 at a whitespace-only query and a non-empty channel
list. -/
theorem claim7_blank_query_witness :
    strip (("  ").toList) = [] ∧
      search_channels (fun _ _ => 100)
          [{ name := ("News1").toList, group := ("News").toList,
             url := ("http://x/1").toList }] (("  ").toList) = [] :=
  ⟨by decide, claim7_blank_query (fun _ _ => 100) _ _ (by decide)⟩

/-- Claim C4: when the URL is well-formed and the fetched body does not start
with `#EXTM3U` after stripping, `fetch_playlist` fails with the malformed
playlist error and the stored channel list is unchanged. -/
theorem claim4_malformed_keeps_channels (st : BrowserState) (url content : Str)
    (h : hasPref (("#EXTM3U").toList) (strip content) = false) :
    (fetch_playlist st url true (some content)).1
        = Except.error FetchError.malformedPlaylist ∧
      (fetch_playlist st url true (some content)).2.channels = st.channels := by
  unfold fetch_playlist
  rw [if_pos rfl]
  have h' : hasPref ['#', 'E', 'X', 'T', 'M', '3', 'U'] (strip content) = false := h
  simp [h']

/-- Witness for C4 at a state holding one channel and a non-M3U body. -/
theorem claim4_malformed_keeps_channels_witness :
    hasPref (("#EXTM3U").toList) (strip (("<html>oops</html>").toList)) = false ∧
      (fetch_playlist
          { playlist_url := none
          , channels := [{ name := ("News1").toList, group := ("News").toList,
                           url := ("http://x/1").toList }]
          , current_filter := none }
          (("http://pl").toList) true (some (("<html>oops</html>").toList))).2.channels
        = [{ name := ("News1").toList, group := ("News").toList,
             url := ("http://x/1").toList }] :=
  ⟨by decide,
   (claim4_malformed_keeps_channels
      { playlist_url := none
      , channels := [{ name := ("News1").toList, group := ("News").toList,
                       url := ("http://x/1").toList }]
      , current_filter := none }
      (("http://pl").toList) (("<html>oops</html>").toList) (by decide)).2⟩

/-- Counterexample to C5 as stated: with two groups listed, the out-of-range
selection `0` (outside `1..2`) is not reported as an error by the group
screen — `int(choice) - 1 = -1` reaches Python list indexing, which resolves
negative indices from the end, so the screen silently drills into the last
group (index 1). -/
theorem claim5_counterexample :
    pyInt? [ '0'] = some 0 ∧ ¬ (1 ≤ (0 : Int) ∧ (0 : Int) ≤ 2) ∧
      browse_groups_step 2 [ '0'] = GroupAction.enter 1 := by
  decide

/-- Claim C5 as amended: the channel screen reports every failed integer
parse and every selection outside `1..length` and re-shows itself; the group
screen does so only when the parse fails or `int(choice) - 1` falls outside
Python's indexable range `[-numGroups, numGroups)` — an out-of-range selection
`n` with `1 - numGroups ≤ n ≤ 0` instead silently enters the group at
position `numGroups + n - 1`. -/
theorem claim5_amended :
    (∀ (channels : List IPTVChannel) (choice : Str),
        lowerStr choice ≠ ['b'] →
        (pyInt? choice = none ∨
          ∃ n, pyInt? choice = some n ∧ (n < 1 ∨ (channels.length : Int) < n)) →
        browse_channels_step channels choice = BrowseAction.errorInvalid) ∧
      (∀ (numGroups : Nat) (choice : Str),
        lowerStr choice ≠ ['b'] →
        (pyInt? choice = none ∨
          ∃ n, pyInt? choice = some n ∧
            ((numGroups : Int) < n ∨ n - 1 < -(numGroups : Int))) →
        browse_groups_step numGroups choice = GroupAction.errorInvalid) := by
  constructor
  · intro channels choice hb h
    unfold browse_channels_step
    rw [if_neg hb]
    cases hx : pyInt? choice with
    | none => rfl
    | some n =>
      cases h with
      | inl h0 => rw [hx] at h0; exact absurd h0 (by simp)
      | inr h1 =>
        obtain ⟨m, hm, hr⟩ := h1
        rw [hx] at hm
        have hmn : m = n := (Option.some.inj hm).symm
        subst hmn
        show (if 0 ≤ m - 1 ∧ m - 1 < (channels.length : Int) then
            BrowseAction.play (m - 1).toNat else BrowseAction.errorInvalid)
          = BrowseAction.errorInvalid
        rw [if_neg]
        omega
  · intro numGroups choice hb h
    unfold browse_groups_step
    rw [if_neg hb]
    cases hx : pyInt? choice with
    | none => rfl
    | some n =>
      cases h with
      | inl h0 => rw [hx] at h0; exact absurd h0 (by simp)
      | inr h1 =>
        obtain ⟨m, hm, hr⟩ := h1
        rw [hx] at hm
        have hmn : m = n := (Option.some.inj hm).symm
        subst hmn
        show (if 0 ≤ m - 1 ∧ m - 1 < (numGroups : Int) then
            GroupAction.enter (m - 1).toNat
          else if -(numGroups : Int) ≤ m - 1 ∧ m - 1 < 0 then
            GroupAction.enter ((numGroups : Int) + (m - 1)).toNat
          else GroupAction.errorInvalid) = GroupAction.errorInvalid
        rw [if_neg, if_neg]
        · omega
        · omega

/-- Witness for the amended C5 at a non-numeric channel-screen input and an
over-range group-screen input. -/
theorem claim5_amended_witness :
    browse_channels_step [] (("abc").toList) = BrowseAction.errorInvalid ∧
      browse_groups_step 2 (("5").toList) = GroupAction.errorInvalid :=
  ⟨claim5_amended.1 [] (("abc").toList) (by decide) (Or.inl (by decide)),
   claim5_amended.2 2 (("5").toList) (by decide)
     (Or.inr ⟨5, by decide, Or.inl (by decide)⟩)⟩

/-- Counterexample to C6 as stated: the playlist below stores a channel whose
`tvg-name` attribute is empty, so its name — and hence its exact lowercased
name — is the empty string; searching for that query hits the empty-query
early return and yields no results, so the channel is not included. -/
theorem claim6_counterexample :
    parsePlaylist (("#EXTM3U\n#EXTINF:-1 tvg-name=\"\",X\nhttp://a\n").toList)
        = [{ name := [], group := ("Ungrouped").toList,
             url := ("http://a").toList }] ∧
      search_channels fuzzScore
          (parsePlaylist (("#EXTM3U\n#EXTINF:-1 tvg-name=\"\",X\nhttp://a\n").toList))
          (lowerStr ([] : Str)) = [] := by
  decide

/-- Claim C6 as amended: every stored channel whose lowercased name does not
strip to the empty string is included when searching for exactly its
lowercased name (the stripped lowercased name is a verbatim segment of the
lowercased name, so the partial-match score is 100). -/
theorem claim6_amended (channels : List IPTVChannel) (ch : IPTVChannel)
    (hmem : ch ∈ channels) (hne : strip (lowerStr ch.name) ≠ []) :
    ch ∈ search_channels fuzzScore channels (lowerStr ch.name) := by
  unfold search_channels
  simp only [lower_strip_lower ch.name]
  rw [if_neg hne]
  apply mem_searchLoop fuzzScore _ channels ch hmem
  have hseg : isSegOf (strip (lowerStr ch.name)) (lowerStr ch.name) = true :=
    isSegOf_of_infix _ _ (strip_isInf (lowerStr ch.name))
  have h100 := fuzzScore_of_seg _ _ hne (strip_length_le (lowerStr ch.name)) hseg
  rw [h100]
  omega

/-- Witness for the amended C6 at a one-channel list. -/
theorem claim6_amended_witness :
    ({ name := ("News1").toList, group := ("News").toList,
       url := ("http://x/1").toList } : IPTVChannel)
      ∈ search_channels fuzzScore
          [{ name := ("News1").toList, group := ("News").toList,
             url := ("http://x/1").toList }]
          (lowerStr (("News1").toList)) :=
  claim6_amended
    [{ name := ("News1").toList, group := ("News").toList,
       url := ("http://x/1").toList }]
    { name := ("News1").toList, group := ("News").toList,
      url := ("http://x/1").toList }
    (by decide) (by decide)

/-- Claim C8: a metadata line on which the `group-title` attribute search
fails yields a channel whose group is the literal `Ungrouped`. -/
theorem claim8_ungrouped (extinf url : Str)
    (h : attrSearch (("group-title").toList) extinf = none) :
    (buildChannel extinf url).group = ("Ungrouped").toList := by
  have h' : attrSearch (['g', 'r', 'o', 'u', 'p', '-', 't', 'i', 't', 'l', 'e'] : Str)
      extinf = none := h
  unfold buildChannel
  simp [h']

/-- Witness for C8 at a metadata line without a `group-title` attribute. -/
theorem claim8_ungrouped_witness :
    attrSearch (("group-title").toList) (("#EXTINF:-1,News 1").toList) = none ∧
      (buildChannel (("#EXTINF:-1,News 1").toList) (("http://a").toList)).group
        = ("Ungrouped").toList :=
  ⟨by decide, claim8_ungrouped (("#EXTINF:-1,News 1").toList) (("http://a").toList)
      (by decide)⟩

/-- Claim C9: on a metadata line whose `tvg-name` attribute search fails,
written as anything followed by its last comma and the comma-free tail `suf`,
the emitted channel's name is that tail with surrounding whitespace
stripped. -/
theorem claim9_name_fallback (pre suf url : Str)
    (hname : attrSearch (("tvg-name").toList) (pre ++ ',' :: suf) = none)
    (hlast : ',' ∉ suf) :
    (buildChannel (pre ++ ',' :: suf) url).name = strip suf := by
  unfold buildChannel
  simp only [hname]
  rw [lastCommaSplit_append pre suf hlast]

/-- Witness for C9 at a metadata line with no name attribute and a padded
title after the last comma. -/
theorem claim9_name_fallback_witness :
    attrSearch (("tvg-name").toList)
        ((("#EXTINF:-1").toList) ++ ',' :: ((" News 1 ").toList)) = none ∧
      (',' ∉ ((" News 1 ").toList)) ∧
      (buildChannel ((("#EXTINF:-1").toList) ++ ',' :: ((" News 1 ").toList))
          (("http://a").toList)).name = ("News 1").toList :=
  ⟨by decide, by decide,
   by rw [claim9_name_fallback (("#EXTINF:-1").toList) ((" News 1 ").toList)
        (("http://a").toList) (by decide) (by decide)]; decide⟩

/-- Claim C10: an attribute present with an empty quoted value is matched by
the attribute pattern, so `group-title` equal to the empty quoted string
gives the empty group (not the `Ungrouped` fallback) and `tvg-name` equal to
the empty quoted string gives the empty name (not the last-comma
fallback). -/
theorem claim10_empty_attr (extinf url : Str) :
    (attrSearch (("group-title").toList) extinf = some [] →
        (buildChannel extinf url).group = [] ∧
          (buildChannel extinf url).group ≠ ("Ungrouped").toList) ∧
      (attrSearch (("tvg-name").toList) extinf = some [] →
        (buildChannel extinf url).name = []) := by
  constructor
  · intro h
    have h' : attrSearch (['g', 'r', 'o', 'u', 'p', '-', 't', 'i', 't', 'l', 'e'] : Str)
        extinf = some [] := h
    have hg : (buildChannel extinf url).group = [] := by
      unfold buildChannel
      simp [h']
    exact ⟨hg, by rw [hg]; decide⟩
  · intro h
    have h' : attrSearch (['t', 'v', 'g', '-', 'n', 'a', 'm', 'e'] : Str)
        extinf = some [] := h
    unfold buildChannel
    simp [h']

/-- Witness for C10 at a metadata line with empty `tvg-name` and
`group-title` values and a non-empty last-comma fallback. -/
theorem claim10_empty_attr_witness :
    attrSearch (("group-title").toList)
        (("#EXTINF:-1 tvg-name=\"\" group-title=\"\",Show").toList) = some [] ∧
      (buildChannel (("#EXTINF:-1 tvg-name=\"\" group-title=\"\",Show").toList)
          (("http://a").toList)).group = [] ∧
      (buildChannel (("#EXTINF:-1 tvg-name=\"\" group-title=\"\",Show").toList)
          (("http://a").toList)).name = [] ∧
      strip (lastCommaSplit
          (("#EXTINF:-1 tvg-name=\"\" group-title=\"\",Show").toList))
        = ("Show").toList :=
  ⟨by decide,
   ((claim10_empty_attr (("#EXTINF:-1 tvg-name=\"\" group-title=\"\",Show").toList)
        (("http://a").toList)).1 (by decide)).1,
   (claim10_empty_attr (("#EXTINF:-1 tvg-name=\"\" group-title=\"\",Show").toList)
        (("http://a").toList)).2 (by decide),
   by decide⟩
